import Mathlib

/-!
Verification of the sales-dashboard pipeline (app.py).

The development shallowly embeds the business logic of the dashboard:
loading and cleaning the raw table (app.py lines 17-35), the sidebar
filters (lines 42-68), the KPI summary and the three grouped aggregates
(lines 73-116), and the CSV export (lines 133-138).  Machine floats are
modelled by exact rationals; pandas tables are modelled by lists of rows.
-/

set_option maxRecDepth 4000

namespace SalesDash

/-! ## Timestamps and calendar dates

`pd.Timestamp` values are modelled by a calendar date plus a time-of-day
in seconds.  Comparison of timestamps is lexicographic. -/

structure Timestamp where
  year : Nat
  month : Nat
  day : Nat
  /-- time of day, in seconds since midnight -/
  tod : Nat
deriving DecidableEq, Repr

/-- Lexicographic comparison of timestamps, as pandas compares `Timestamp`s. -/
def Timestamp.leb (a b : Timestamp) : Bool :=
  if a.year < b.year then true
  else if b.year < a.year then false
  else if a.month < b.month then true
  else if b.month < a.month then false
  else if a.day < b.day then true
  else if b.day < a.day then false
  else a.tod ≤ b.tod

/-- A calendar date, as returned by the sidebar `st.date_input` widget. -/
structure CalDate where
  year : Nat
  month : Nat
  day : Nat
deriving DecidableEq, Repr

/-- Conversion `pd.to_datetime(date)` of a calendar date: midnight of that day
(app.py lines 60-61). -/
def calToTs (d : CalDate) : Timestamp := ⟨d.year, d.month, d.day, 0⟩

/-- The calendar date of a timestamp (drop the time of day). -/
def toCal (t : Timestamp) : CalDate := ⟨t.year, t.month, t.day⟩

/-- Lexicographic comparison of calendar dates. -/
def CalDate.leb (a b : CalDate) : Bool :=
  if a.year < b.year then true
  else if b.year < a.year then false
  else if a.month < b.month then true
  else if b.month < a.month then false
  else a.day ≤ b.day

/-- Strict lexicographic comparison of calendar dates. -/
def CalDate.ltb (a b : CalDate) : Bool :=
  !(CalDate.leb b a)

/-! ## Digit strings

Executable conversions between natural numbers and decimal digit strings,
used to model `pd.to_numeric` and the textual rendering done by `to_csv`. -/

/-- Numeric value of a decimal digit character. -/
def charVal (c : Char) : Nat := c.toNat - 48

/-- Whether a character is a decimal digit `0`-`9`. -/
def isDigitChar (c : Char) : Bool := 48 ≤ c.toNat && c.toNat ≤ 57

/-- The decimal digit character for a value `0`-`9`. -/
def digitChar : Nat → Char
  | 0 => '0' | 1 => '1' | 2 => '2' | 3 => '3' | 4 => '4'
  | 5 => '5' | 6 => '6' | 7 => '7' | 8 => '8' | 9 => '9'
  | _ => '*'

/-- Value of a digit string, most significant digit first. -/
def digitsVal (l : List Char) : Nat :=
  l.foldl (fun a c => a * 10 + charVal c) 0

/-- Whether every character of `l` is a decimal digit. -/
def isDigits (l : List Char) : Bool := l.all isDigitChar

/-- Decimal digit string of `n`, with `fuel` bounding the recursion depth. -/
def natDigitsAux : Nat → Nat → List Char
  | 0, _ => []
  | fuel + 1, n =>
    if n < 10 then [digitChar n]
    else natDigitsAux fuel (n / 10) ++ [digitChar (n % 10)]

/-- Decimal digit string of `n` (no sign, no leading zeros). -/
def natDigits (n : Nat) : List Char := natDigitsAux (n + 1) n

/-- Fixed-width decimal rendering: exactly `k` digits of `n % 10 ^ k`,
zero padded. -/
def fixedDigits : Nat → Nat → List Char
  | 0, _ => []
  | k + 1, n => fixedDigits k (n / 10) ++ [digitChar (n % 10)]

/-! ## Splitting and trimming character lists -/

/-- Split a character list on a separator (like `str.split`); always returns
at least one (possibly empty) part. -/
def splitOnC (sep : Char) : List Char → List (List Char)
  | [] => [[]]
  | c :: rest =>
    let r := splitOnC sep rest
    if c = sep then [] :: r
    else
      match r with
      | [] => [[c]]
      | p :: ps => (c :: p) :: ps

/-- Drop leading spaces. -/
def dropSpaces : List Char → List Char
  | [] => []
  | c :: rest => if c = ' ' then dropSpaces rest else c :: rest

/-- Trim spaces from both ends, as `pd.to_numeric` tolerates surrounding
whitespace. -/
def trimChars (l : List Char) : List Char :=
  (dropSpaces (dropSpaces l.reverse).reverse)

/-! ## Numeric parsing, modelling `pd.to_numeric(..., errors="coerce")` -/

/-- Parse a nonempty all-digit string to a natural number. -/
def parseNatChars (l : List Char) : Option Nat :=
  if l ≠ [] ∧ isDigits l then some (digitsVal l) else none

/-- Parse an unsigned decimal numeral, with an optional fractional part; the
value of `ip.fp` is the rational `(ip * 10 ^ k + fp) / 10 ^ k` where `k` is
the number of fractional digits. -/
def parseUnsigned (l : List Char) : Option ℚ :=
  match splitOnC '.' l with
  | [ip] => (parseNatChars ip).map (fun n => (n : ℚ))
  | [ip, fp] =>
    if ip = [] ∧ fp = [] then none
    else if ¬ (isDigits ip ∧ isDigits fp) then none
    else some (mkRat (digitsVal ip * 10 ^ fp.length + digitsVal fp) (10 ^ fp.length))
  | _ => none

/-- Parse a signed decimal numeral from characters; `none` models the `NaN`
produced by `pd.to_numeric(..., errors="coerce")` on unparseable text
(app.py lines 28-30). -/
def parseDecChars (l : List Char) : Option ℚ :=
  match trimChars l with
  | [] => none
  | c :: rest =>
    if c = '-' then (parseUnsigned rest).map (fun q => -q)
    else if c = '+' then parseUnsigned rest
    else parseUnsigned (c :: rest)

/-- Parse a decimal numeral from a string. -/
def parseDecimal (s : String) : Option ℚ := parseDecChars s.data

/-- Currency cleaning (app.py lines 24-26): `str.replace("$", "")` followed by
`str.replace(",", "")`, i.e. removal of every occurrence of the two
characters. -/
def cleanCurrency (s : String) : String :=
  String.mk (s.data.filter (fun c => !(c == '$' || c == ',')))

/-- Cleaning then numeric coercion of one currency cell; `none` models a cell
that ends up `NaN` (blank cell, or text that does not parse). -/
def parseMoney (cell : Option String) : Option ℚ :=
  match cell with
  | none => none
  | some s => parseDecimal (cleanCurrency s)

/-! ## Date parsing, modelling `pd.to_datetime(..., dayfirst=True)` -/

/-- Parse a time-of-day `H:MM:SS` into seconds. -/
def parseTimeChars (l : List Char) : Option Nat :=
  match splitOnC ':' l with
  | [hp, mp, sp] =>
    match parseNatChars hp, parseNatChars mp, parseNatChars sp with
    | some h, some m, some s =>
      if h ≤ 23 ∧ m ≤ 59 ∧ s ≤ 59 then some (h * 3600 + m * 60 + s) else none
    | _, _, _ => none
  | _ => none

/-- Parse a calendar date: either day-first `D/M/YYYY` (the `dayfirst=True`
convention of app.py line 33) or ISO `YYYY-MM-DD` (which pandas always
recognises, and which `to_csv` emits). -/
def parseCalChars (l : List Char) : Option CalDate :=
  match splitOnC '/' l with
  | [dp, mp, yp] =>
    match parseNatChars dp, parseNatChars mp, parseNatChars yp with
    | some d, some m, some y =>
      if 1 ≤ m ∧ m ≤ 12 ∧ 1 ≤ d ∧ d ≤ 31 then some ⟨y, m, d⟩ else none
    | _, _, _ => none
  | [_] =>
    match splitOnC '-' l with
    | [yp, mp, dp] =>
      match parseNatChars yp, parseNatChars mp, parseNatChars dp with
      | some y, some m, some d =>
        if 1 ≤ m ∧ m ≤ 12 ∧ 1 ≤ d ∧ d ≤ 31 then some ⟨y, m, d⟩ else none
      | _, _, _ => none
    | _ => none
  | _ => none

/-- Parse a date text, with an optional trailing time-of-day. -/
def parseDateChars (l : List Char) : Option Timestamp :=
  match splitOnC ' ' l with
  | [dp] => (parseCalChars dp).map calToTs
  | [dp, tp] =>
    match parseCalChars dp, parseTimeChars tp with
    | some c, some t => some ⟨c.year, c.month, c.day, t⟩
    | _, _ => none
  | _ => none

/-- Parse a date from a string. -/
def parseDateText (s : String) : Option Timestamp := parseDateChars s.data

/-! ## Raw table model

A raw cell as produced by `pd.read_excel`: a blank cell becomes `NaN`
(here `none` / `DCell.blank`), a date-typed cell is already a timestamp,
and anything else is text. -/

/-- A raw `Date` cell. -/
inductive DCell where
  | blank
  | text (s : String)
  | dt (t : Timestamp)
deriving DecidableEq, Repr

/-- One raw row of the spreadsheet, under the seven fixed column names.
`extra` holds the cells of any additional columns (such as the derived
`Month` column of a re-imported export), which `load_data` never converts
but whose blanks still count for `dropna`. -/
structure RawRow where
  date : DCell
  country : Option String
  product : Option String
  unitsSold : Option ℚ
  unitPrice : Option String
  totalSale : Option String
  salesAfterDiscount : Option String
  extra : List (Option String) := []
deriving DecidableEq, Repr

/-- A cleaned row, after currency coercion and date conversion but before
`dropna`; `none` fields are the `NaN`/`NaT` entries. -/
structure CRow where
  date : Option Timestamp
  country : Option String
  product : Option String
  unitsSold : Option ℚ
  unitPrice : Option ℚ
  totalSale : Option ℚ
  salesAfterDiscount : Option ℚ
  extra : List (Option String)
deriving DecidableEq, Repr

/-- One fully-populated record of the cleaned dataset. -/
structure Record where
  date : Timestamp
  country : String
  product : String
  unitsSold : ℚ
  unitPrice : ℚ
  totalSale : ℚ
  salesAfterDiscount : ℚ
deriving DecidableEq, Repr

/-! ## Loader/Cleaner (app.py lines 17-35) -/

/-- Whether the `Date` cell is text that `pd.to_datetime` cannot parse.
With no `errors="coerce"` argument, such a cell makes the conversion of
app.py line 33 raise. -/
def badDateText (r : RawRow) : Bool :=
  match r.date with
  | DCell.text s => (parseDateText s).isNone
  | _ => false

/-- Value of the converted `Date` cell: blanks become `NaT`, date-typed cells
pass through, text is parsed. -/
def dateValue : DCell → Option Timestamp
  | DCell.blank => none
  | DCell.dt t => some t
  | DCell.text s => parseDateText s

/-- Cleaning of one row: currency coercion on the three money columns
(app.py lines 24-30) and date conversion (line 33); the remaining columns are
untouched. -/
def cleanRow (r : RawRow) : CRow where
  date := dateValue r.date
  country := r.country
  product := r.product
  unitsSold := r.unitsSold
  unitPrice := parseMoney r.unitPrice
  totalSale := parseMoney r.totalSale
  salesAfterDiscount := parseMoney r.salesAfterDiscount
  extra := r.extra

/-- The `dropna()` row predicate (app.py line 35): every cell of the row,
in every column, is present. -/
def rowComplete (c : CRow) : Bool :=
  c.date.isSome && c.country.isSome && c.product.isSome && c.unitsSold.isSome &&
    c.unitPrice.isSome && c.totalSale.isSome && c.salesAfterDiscount.isSome &&
    c.extra.all Option.isSome

/-- Typed view of a complete cleaned row. -/
def toRecord (c : CRow) : Option Record :=
  match c.date, c.country, c.product, c.unitsSold, c.unitPrice, c.totalSale,
      c.salesAfterDiscount with
  | some d, some co, some pr, some u, some up, some ts, some sad =>
    if c.extra.all Option.isSome then some ⟨d, co, pr, u, up, ts, sad⟩ else none
  | _, _, _, _, _, _, _ => none

/-- Row-to-record conversion for one raw row: cleaning followed by the
`dropna` completeness test. -/
def rowToRecord (r : RawRow) : Option Record := toRecord (cleanRow r)

/-- Load errors: a `KeyError` for a missing column, or the `ValueError`
raised by `pd.to_datetime` on unparseable date text. -/
inductive LoadErr where
  | keyErrorUnitPrice
  | keyErrorTotalSale
  | keyErrorSalesAfterDiscount
  | keyErrorDate
  | keyErrorCountry
  | keyErrorProduct
  | keyErrorUnitsSold
  | dateParseError
deriving DecidableEq, Repr

/-- The Loader/Cleaner `load_data` (app.py lines 17-35) on a table with all
seven columns present: clean the currency columns, convert the dates
(raising if any text date is unparseable), then drop the incomplete rows. -/
def load (rows : List RawRow) : Except LoadErr (List Record) :=
  if rows.all (fun r => !badDateText r) then
    Except.ok (((rows.map cleanRow).filter rowComplete).filterMap toRecord)
  else
    Except.error LoadErr.dateParseError

/-! ## Filter Engine (app.py lines 42-68) -/

/-- The sidebar selections: a reporting period and the two multi-selects. -/
structure Criteria where
  startDate : CalDate
  endDate : CalDate
  countries : List String
  products : List String
deriving DecidableEq, Repr

/-- The date-range predicate of app.py lines 59-62: the record's timestamp is
compared against `pd.to_datetime(start_date)` and `pd.to_datetime(end_date)`,
the midnights of the two selected calendar dates. -/
def datePredB (c : Criteria) (r : Record) : Bool :=
  Timestamp.leb (calToTs c.startDate) r.date && Timestamp.leb r.date (calToTs c.endDate)

/-- The Filter Engine (app.py lines 57-68): the date-range filter always
applies; each multi-select filter applies only when its selection is
nonempty. -/
def applyFilter (df : List Record) (c : Criteria) : List Record :=
  let f1 := df.filter (datePredB c)
  let f2 :=
    if c.countries.isEmpty then f1
    else f1.filter (fun r => c.countries.contains r.country)
  if c.products.isEmpty then f2
  else f2.filter (fun r => c.products.contains r.product)

/-- The conjunction of the three predicates, as the spec states them: date in
range, country in the set or the set empty, product in the set or the set
empty. -/
def claimPredB (c : Criteria) (r : Record) : Bool :=
  datePredB c r && (c.countries.isEmpty || c.countries.contains r.country) &&
    (c.products.isEmpty || c.products.contains r.product)

/-! ## Aggregator (app.py lines 73-116) -/

/-- The `Month` label of a record, as `dt.to_period("M").astype(str)`
renders it (app.py line 114): `YYYY-MM`. -/
def monthStr (t : Timestamp) : String :=
  String.mk (natDigits t.year ++ '-' :: fixedDigits 2 t.month)

/-- A pandas `groupby(key)[Sales_After_Discount].sum()`: one entry per
distinct key of the view, carrying the sum of `Sales_After_Discount` over
the rows with that key. -/
def groupSumBy (key : Record → String) (v : List Record) : List (String × ℚ) :=
  ((v.map key).dedup).map
    (fun k => (k, ((v.filter (fun r => key r == k)).map
      (fun r => r.salesAfterDiscount)).sum))

/-- The aggregate results: three scalar KPIs and three grouped mappings. -/
structure Summary where
  totalSales : ℚ
  totalAfterDiscount : ℚ
  totalUnits : ℚ
  countrySales : List (String × ℚ)
  productSales : List (String × ℚ)
  monthlySales : List (String × ℚ)
deriving DecidableEq, Repr

/-- The Aggregator (app.py lines 73-75, 86, 100, 114-116). -/
def summarize (v : List Record) : Summary where
  totalSales := (v.map (fun r => r.totalSale)).sum
  totalAfterDiscount := (v.map (fun r => r.salesAfterDiscount)).sum
  totalUnits := (v.map (fun r => r.unitsSold)).sum
  countrySales := groupSumBy (fun r => r.country) v
  productSales := groupSumBy (fun r => r.product) v
  monthlySales := groupSumBy (fun r => monthStr r.date) v

/-! ## Exporter (app.py lines 133-138)

`filtered_df.to_csv(index=False)` renders each cell as text: floats as
plain decimals, timestamps in ISO form with a time-of-day.  The export is
modelled at row level — one `RawRow` per exported record, carrying the
rendered text — which is exactly what feeding the CSV back through the
Loader/Cleaner's parsing rules would present to it. -/

/-- A rational is decimally representable when its denominator divides a
power of ten (every value parsed from decimal text is). -/
def IsDec (q : ℚ) : Prop := (q.den : ℕ) ∣ 10 ^ q.den

instance (q : ℚ) : Decidable (IsDec q) := by
  unfold IsDec; infer_instance

/-- Decimal text of a rational with a power-of-ten denominator: sign,
integer part, and `q.den` fractional digits. -/
def renderDec (q : ℚ) : List Char :=
  let e := q.den
  let mAbs := q.num.natAbs * 10 ^ e / q.den
  let body :=
    natDigits (mAbs / 10 ^ e) ++ '.' :: fixedDigits e (mAbs % 10 ^ e)
  if q.num < 0 then '-' :: body else body

/-- ISO rendering of a timestamp, `YYYY-MM-DD H:MM:SS`, as `str(Timestamp)`
produces for `to_csv`. -/
def renderTs (t : Timestamp) : List Char :=
  natDigits t.year ++ '-' :: fixedDigits 2 t.month ++ '-' :: fixedDigits 2 t.day ++
    ' ' :: natDigits (t.tod / 3600) ++ ':' :: fixedDigits 2 (t.tod % 3600 / 60) ++
      ':' :: fixedDigits 2 (t.tod % 60)

/-- Validity bounds a pandas timestamp satisfies. -/
def ValidTs (t : Timestamp) : Prop :=
  1 ≤ t.month ∧ t.month ≤ 12 ∧ 1 ≤ t.day ∧ t.day ≤ 31 ∧ t.tod < 86400

instance (t : Timestamp) : Decidable (ValidTs t) := by
  unfold ValidTs; infer_instance

/-- A string field as CSV round-trips it: an empty string reads back as a
blank cell (`NaN`), any other text is preserved. -/
def exportText (s : String) : Option String :=
  if s = "" then none else some s

/-- The exported form of one record of the filtered view, together with its
derived `Month` label (the extra column of the exported frame). -/
def exportRow (r : Record) (month : String) : RawRow where
  date := DCell.text (String.mk (renderTs r.date))
  country := exportText r.country
  product := exportText r.product
  unitsSold := some r.unitsSold
  unitPrice := some (String.mk (renderDec r.unitPrice))
  totalSale := some (String.mk (renderDec r.totalSale))
  salesAfterDiscount := some (String.mk (renderDec r.salesAfterDiscount))
  extra := [exportText month]

/-! ## The script state (app.py lines 57 and 114)

The script keeps two frames: the cached dataset `df` and the working frame
`filtered_df`.  Re-binding and in-place mutation of `filtered_df` are
modelled as explicit state updates, so that which frame each step writes is
part of the model. -/

/-- A row of the working frame: a record plus the optional derived `Month`
column (absent until app.py line 114 adds it). -/
structure MRec where
  base : Record
  month : Option String
deriving DecidableEq, Repr

/-- The two data frames the script manipulates. -/
structure DashState where
  df : List Record
  view : List MRec
deriving DecidableEq, Repr

/-- The straight-line script body on the frames: copy `df` (line 57), apply
the three filters (lines 59-68), then add the `Month` column to the working
frame in place (line 114). -/
def scriptSteps (c : Criteria) (s : DashState) : DashState :=
  let s1 : DashState := { s with view := s.df.map (fun r => ⟨r, none⟩) }
  let s2 : DashState := { s1 with view := s1.view.filter (fun m => datePredB c m.base) }
  let s3 : DashState :=
    if c.countries.isEmpty then s2
    else { s2 with view := s2.view.filter (fun m => c.countries.contains m.base.country) }
  let s4 : DashState :=
    if c.products.isEmpty then s3
    else { s3 with view := s3.view.filter (fun m => c.products.contains m.base.product) }
  { s4 with view := s4.view.map (fun m => { m with month := some (monthStr m.base.date) }) }

/-! ## Column-presence model (for load-time versus late failures)

`load_data` accesses only the columns `Unit_Price`, `Total_Sale`,
`Sales_After_Discount` (app.py lines 24-26) and `Date` (line 33).  The
sidebar accesses `Country` (line 49) and `Product` (line 53), and the KPI
block accesses `Units_Sold` (line 75).  A missing column raises a
`KeyError` at its first access. -/

/-- Which of the seven required columns the source table has. -/
structure Schema where
  hasDate : Bool
  hasCountry : Bool
  hasProduct : Bool
  hasUnitsSold : Bool
  hasUnitPrice : Bool
  hasTotalSale : Bool
  hasSalesAfterDiscount : Bool
deriving DecidableEq, Repr

/-- The full schema of a well-formed source. -/
def fullSchema : Schema := ⟨true, true, true, true, true, true, true⟩

/-- `dropna()` over only the columns that exist in the schema. -/
def rowCompleteS (s : Schema) (c : CRow) : Bool :=
  (!s.hasDate || c.date.isSome) && (!s.hasCountry || c.country.isSome) &&
    (!s.hasProduct || c.product.isSome) && (!s.hasUnitsSold || c.unitsSold.isSome) &&
    (!s.hasUnitPrice || c.unitPrice.isSome) && (!s.hasTotalSale || c.totalSale.isSome) &&
    (!s.hasSalesAfterDiscount || c.salesAfterDiscount.isSome) &&
    c.extra.all Option.isSome

/-- `load_data` under the column-presence model: each column access of
app.py lines 24, 25, 26 and 33 fails with a `KeyError` when its column is
absent; otherwise the rows are cleaned and `dropna` keeps the complete
ones. -/
def loadS (s : Schema) (rows : List RawRow) : Except LoadErr (List CRow) :=
  if !s.hasUnitPrice then Except.error LoadErr.keyErrorUnitPrice
  else if !s.hasTotalSale then Except.error LoadErr.keyErrorTotalSale
  else if !s.hasSalesAfterDiscount then Except.error LoadErr.keyErrorSalesAfterDiscount
  else if !s.hasDate then Except.error LoadErr.keyErrorDate
  else if rows.all (fun r => !badDateText r) then
    Except.ok ((rows.map cleanRow).filter (rowCompleteS s))
  else Except.error LoadErr.dateParseError

/-- The sidebar accesses (app.py lines 49 and 53), after the load. -/
def sidebarStep (s : Schema) : Except LoadErr Unit :=
  if !s.hasCountry then Except.error LoadErr.keyErrorCountry
  else if !s.hasProduct then Except.error LoadErr.keyErrorProduct
  else Except.ok ()

/-- The KPI access to `Units_Sold` (app.py line 75), during aggregation. -/
def kpiStep (s : Schema) : Except LoadErr Unit :=
  if !s.hasUnitsSold then Except.error LoadErr.keyErrorUnitsSold
  else Except.ok ()

/-- The exported form of a filtered view, one raw row per record, carrying
the derived `Month` column exactly as app.py line 114 computed it. -/
def exportView (v : List Record) : List RawRow :=
  v.map (fun r => exportRow r (monthStr r.date))

/-- A record whose field values a pandas frame can actually hold: the three
money fields are decimally representable and the timestamp is in range;
its category strings are nonempty (an empty string would have been a blank
cell). -/
def GoodRec (r : Record) : Prop :=
  IsDec r.unitPrice ∧ IsDec r.totalSale ∧ IsDec r.salesAfterDiscount ∧
    ValidTs r.date ∧ r.country ≠ "" ∧ r.product ≠ ""

instance (r : Record) : Decidable (GoodRec r) := by
  unfold GoodRec; infer_instance

/-! ## Concrete inputs used by the witnesses and counterexamples -/

/-- A raw row every field of which parses. -/
def wGoodRow : RawRow where
  date := DCell.text "05/03/2024"
  country := some "US"
  product := some "Widget"
  unitsSold := some 10
  unitPrice := some "$9.00"
  totalSale := some "$90.00"
  salesAfterDiscount := some "$85.50"

/-- The cleaned record of `wGoodRow`. -/
def wGoodRec : Record :=
  ⟨⟨2024, 3, 5, 0⟩, "US", "Widget", 10, 9, 90, mkRat 171 2⟩

/-- A raw row whose `Total_Sale` text does not parse even after currency
cleaning. -/
def wBadMoneyRow : RawRow where
  date := DCell.text "06/03/2024"
  country := some "UK"
  product := some "Gadget"
  unitsSold := some 2
  unitPrice := some "$5.00"
  totalSale := some "ten dollars"
  salesAfterDiscount := some "$8.00"

/-- A raw row whose `Date` cell holds text no date parser accepts. -/
def wBadDateRow : RawRow where
  date := DCell.text "not a date"
  country := some "FR"
  product := some "Widget"
  unitsSold := some 1
  unitPrice := some "$1.00"
  totalSale := some "$1.00"
  salesAfterDiscount := some "$1.00"

/-- A raw row whose `Date` cell is blank. -/
def wBlankDateRow : RawRow where
  date := DCell.blank
  country := some "DE"
  product := some "Widget"
  unitsSold := some 3
  unitPrice := some "$2.00"
  totalSale := some "$6.00"
  salesAfterDiscount := some "$6.00"

/-- A record dated on the end of the reporting period, at 10:00 in the
morning. -/
def wMorningRec : Record :=
  ⟨⟨2024, 3, 5, 36000⟩, "US", "Widget", 1, 1, 1, 1⟩

/-- Criteria whose reporting period ends on 5 March 2024, with no country or
product restriction. -/
def wMarchCrit : Criteria :=
  ⟨⟨2024, 3, 1⟩, ⟨2024, 3, 5⟩, [], []⟩

/-- The schema of a source table that has every required column except
`Units_Sold`. -/
def wNoUnitsSchema : Schema :=
  { fullSchema with hasUnitsSold := false }

/-- A raw row whose money cells carry misplaced thousands separators. -/
def wCommaRow : RawRow where
  date := DCell.text "05/03/2024"
  country := some "US"
  product := some "Widget"
  unitsSold := some 10
  unitPrice := some "1,2,3"
  totalSale := some "12,34"
  salesAfterDiscount := some "$1,000.50"

/-- The cleaned record of `wCommaRow`: the malformed separators vanish. -/
def wCommaRec : Record :=
  ⟨⟨2024, 3, 5, 0⟩, "US", "Widget", 10, 123, 1234, mkRat 2001 2⟩

/-- A filtered-view record used to exercise the export round trip, with a
nonzero time-of-day and a money value of eight-thousandths granularity. -/
def wExportRec : Record :=
  ⟨⟨2024, 12, 31, 86399⟩, "US", "Widget", 10, mkRat 19 8, 90, mkRat 171 2⟩

instance {ε α : Type} [DecidableEq ε] [DecidableEq α] : DecidableEq (Except ε α) :=
  fun a b =>
    match a, b with
    | Except.ok x, Except.ok y => decidable_of_iff (x = y) (by simp)
    | Except.error e, Except.error f => decidable_of_iff (e = f) (by simp)
    | Except.ok _, Except.error _ => isFalse (by intro h; exact Except.noConfusion h)
    | Except.error _, Except.ok _ => isFalse (by intro h; exact Except.noConfusion h)

/-! ## General lemmas about filtering and grouped sums -/

theorem sum_filter_not_add {α : Type} (p : α → Bool) (f : α → ℚ) (v : List α) :
    ((v.filter p).map f).sum + ((v.filter (fun r => !p r)).map f).sum = (v.map f).sum := by
  induction v with
  | nil => simp
  | cons a t ih =>
    cases h : p a
    · rw [List.filter_cons_of_neg (by simp [h]), List.filter_cons_of_pos (by simp [h])]
      simp only [List.map_cons, List.sum_cons]
      rw [← ih]; ring
    · rw [List.filter_cons_of_pos (by simp [h]), List.filter_cons_of_neg (by simp [h])]
      simp only [List.map_cons, List.sum_cons]
      rw [← ih]; ring

theorem sum_over_keys {α : Type} (key : α → String) (f : α → ℚ) :
    ∀ (ks : List String) (v : List α), ks.Nodup → (∀ r ∈ v, key r ∈ ks) →
      (ks.map (fun k => ((v.filter (fun r => key r == k)).map f).sum)).sum = (v.map f).sum := by
  intro ks
  induction ks with
  | nil =>
    intro v _ hcov
    cases v with
    | nil => simp
    | cons a t => exact absurd (hcov a (by simp)) (by simp)
  | cons k ks ih =>
    intro v hnd hcov
    have hk : k ∉ ks := (List.nodup_cons.mp hnd).1
    have htail :
        (ks.map (fun k' => ((v.filter (fun r => key r == k')).map f).sum)).sum =
          ((v.filter (fun r => !(key r == k))).map f).sum := by
      have hmapeq :
          ks.map (fun k' => ((v.filter (fun r => key r == k')).map f).sum) =
            ks.map (fun k' =>
              (((v.filter (fun r => !(key r == k))).filter (fun r => key r == k')).map f).sum) := by
        apply List.map_congr_left
        intro k' hk'
        have hkk : k' ≠ k := by rintro rfl; exact hk hk'
        rw [List.filter_filter]
        congr 1
        apply congrArg (List.map f)
        apply List.filter_congr
        intro r _
        cases hr : key r == k' with
        | false => simp
        | true =>
          have heq : key r = k' := by simpa using hr
          have hne : (key r == k) = false := by
            simp only [beq_eq_false_iff_ne, ne_eq, heq]
            exact hkk
          simp [hne]
      rw [hmapeq]
      exact ih (v.filter (fun r => !(key r == k))) (List.nodup_cons.mp hnd).2
        (by
          intro r hr
          have hrv := List.mem_filter.mp hr
          have := hcov r hrv.1
          have hne : key r ≠ k := by
            have := hrv.2
            simpa using this
          simpa [hne] using this)
    simp only [List.map_cons, List.sum_cons, htail]
    exact sum_filter_not_add (fun r => key r == k) f v

theorem groupSumBy_total (key : Record → String) (v : List Record) :
    ((groupSumBy key v).map Prod.snd).sum =
      (v.map (fun r => r.salesAfterDiscount)).sum := by
  unfold groupSumBy
  rw [List.map_map]
  exact sum_over_keys key (fun r => r.salesAfterDiscount) ((v.map key).dedup) v
    ((v.map key).nodup_dedup)
    (fun r hr => List.mem_dedup.mpr (List.mem_map_of_mem key hr))

/-! ## Digit strings: values, digit-classes, round trips -/

theorem charVal_digitChar (d : Nat) (h : d ≤ 9) : charVal (digitChar d) = d := by
  interval_cases d <;> rfl

theorem isDigitChar_digitChar (d : Nat) (h : d ≤ 9) : isDigitChar (digitChar d) = true := by
  interval_cases d <;> rfl

theorem digitsVal_from (a : Nat) (l : List Char) :
    l.foldl (fun x c => x * 10 + charVal c) a =
      a * 10 ^ l.length + l.foldl (fun x c => x * 10 + charVal c) 0 := by
  induction l generalizing a with
  | nil => simp
  | cons c t ih =>
    simp only [List.foldl_cons, List.length_cons]
    rw [ih (a * 10 + charVal c), ih (0 * 10 + charVal c)]
    ring

theorem digitsVal_append (l1 l2 : List Char) :
    digitsVal (l1 ++ l2) = digitsVal l1 * 10 ^ l2.length + digitsVal l2 := by
  unfold digitsVal
  rw [List.foldl_append]
  exact digitsVal_from _ _

theorem digitsVal_singleton (c : Char) : digitsVal [c] = charVal c := by
  simp [digitsVal]

theorem natDigitsAux_spec :
    ∀ fuel n, n < 10 ^ (fuel + 1) →
      digitsVal (natDigitsAux (fuel + 1) n) = n ∧
      isDigits (natDigitsAux (fuel + 1) n) = true ∧ natDigitsAux (fuel + 1) n ≠ [] := by
  intro fuel
  induction fuel with
  | zero =>
    intro n hn
    have hn9 : n ≤ 9 := by simpa using Nat.lt_succ_iff.mp (by simpa using hn)
    have : natDigitsAux 1 n = [digitChar n] := by
      unfold natDigitsAux
      rw [if_pos (by omega)]
    rw [this]
    refine ⟨?_, ?_, by simp⟩
    · rw [digitsVal_singleton, charVal_digitChar n hn9]
    · simp [isDigits, isDigitChar_digitChar n hn9]
  | succ fuel ih =>
    intro n hn
    by_cases h10 : n < 10
    · have : natDigitsAux (fuel + 2) n = [digitChar n] := by
        unfold natDigitsAux
        rw [if_pos h10]
      rw [this]
      refine ⟨?_, ?_, by simp⟩
      · rw [digitsVal_singleton, charVal_digitChar n (by omega)]
      · simp [isDigits, isDigitChar_digitChar n (by omega)]
    · have hstep : natDigitsAux (fuel + 2) n =
          natDigitsAux (fuel + 1) (n / 10) ++ [digitChar (n % 10)] := by
        show (if n < 10 then [digitChar n]
          else natDigitsAux (fuel + 1) (n / 10) ++ [digitChar (n % 10)]) = _
        rw [if_neg h10]
      have hdiv : n / 10 < 10 ^ (fuel + 1) := by
        rw [Nat.div_lt_iff_lt_mul (by omega)]
        calc n < 10 ^ (fuel + 2) := hn
          _ = 10 ^ (fuel + 1) * 10 := by ring
      obtain ⟨ihv, ihd, ihne⟩ := ih (n / 10) hdiv
      rw [hstep]
      refine ⟨?_, ?_, by simp⟩
      · rw [digitsVal_append, ihv, digitsVal_singleton,
          charVal_digitChar (n % 10) (by omega)]
        simp only [List.length_singleton, pow_one]
        omega
      · simp only [isDigits, List.all_append] at ihd ⊢
        simp [ihd, isDigits, isDigitChar_digitChar (n % 10) (by omega)]

theorem natDigits_spec (n : Nat) :
    digitsVal (natDigits n) = n ∧ isDigits (natDigits n) = true ∧ natDigits n ≠ [] := by
  unfold natDigits
  refine natDigitsAux_spec n n ?_
  have h1 : n < 10 ^ n := Nat.lt_pow_self (by omega) n
  have h2 : 10 ^ n ≤ 10 ^ (n + 1) := Nat.pow_le_pow_right (by omega) (by omega)
  omega

theorem fixedDigits_spec (k : Nat) :
    ∀ n, digitsVal (fixedDigits k n) = n % 10 ^ k ∧
      isDigits (fixedDigits k n) = true ∧ (fixedDigits k n).length = k := by
  induction k with
  | zero => intro n; simp [fixedDigits, digitsVal, isDigits, Nat.mod_one]
  | succ k ih =>
    intro n
    obtain ⟨ihv, ihd, ihl⟩ := ih (n / 10)
    have hstep : fixedDigits (k + 1) n = fixedDigits k (n / 10) ++ [digitChar (n % 10)] := rfl
    rw [hstep]
    refine ⟨?_, ?_, by simp [ihl]⟩
    · rw [digitsVal_append, ihv, digitsVal_singleton,
        charVal_digitChar (n % 10) (by omega)]
      simp only [List.length_singleton, pow_one]
      have hpow : 10 ^ (k + 1) = 10 * 10 ^ k := by ring
      rw [hpow, ← Nat.mod_mul_right_div_self]
      have hmm : n % (10 * 10 ^ k) % 10 = n % 10 := Nat.mod_mod_of_dvd n ⟨10 ^ k, rfl⟩
      generalize n % (10 * 10 ^ k) = m at hmm ⊢
      omega
    · simp only [isDigits, List.all_append] at ihd ⊢
      simp [ihd, isDigits, isDigitChar_digitChar (n % 10) (by omega)]

/-! ## Splitting and trimming: behaviour on separator-free segments -/

theorem splitOnC_not_mem (sep : Char) (l : List Char) (h : sep ∉ l) :
    splitOnC sep l = [l] := by
  induction l with
  | nil => rfl
  | cons c rest ih =>
    have hc : ¬ (c = sep) := by rintro rfl; exact h (by simp)
    have hr : sep ∉ rest := fun hm => h (by simp [hm])
    simp only [splitOnC, ih hr]
    rw [if_neg hc]

theorem splitOnC_append (sep : Char) (a r : List Char) (h : sep ∉ a) :
    splitOnC sep (a ++ sep :: r) = a :: splitOnC sep r := by
  induction a with
  | nil =>
    simp only [List.nil_append, splitOnC]
    simp
  | cons c t ih =>
    have hc : ¬ (c = sep) := by rintro rfl; exact h (by simp)
    have ht : sep ∉ t := fun hm => h (by simp [hm])
    simp only [List.cons_append, splitOnC, List.append_eq]
    rw [if_neg hc, ih ht]

theorem dropSpaces_no_space (l : List Char) (h : ' ' ∉ l) : dropSpaces l = l := by
  cases l with
  | nil => rfl
  | cons c t =>
    have hc : ¬ (c = ' ') := by rintro rfl; exact h (by simp)
    unfold dropSpaces
    rw [if_neg hc]

theorem trimChars_no_space (l : List Char) (h : ' ' ∉ l) : trimChars l = l := by
  unfold trimChars
  rw [dropSpaces_no_space l.reverse (by simpa using h), List.reverse_reverse,
    dropSpaces_no_space l h]

theorem mem_isDigits {l : List Char} {c : Char} (hd : isDigits l = true) (hc : c ∈ l) :
    isDigitChar c = true := by
  unfold isDigits at hd
  exact List.all_eq_true.mp hd c hc

theorem not_mem_of_digits {l : List Char} (hd : isDigits l = true) {c : Char}
    (hc : isDigitChar c = false) : c ∉ l := by
  intro hm
  rw [mem_isDigits hd hm] at hc
  exact Bool.noConfusion hc

theorem parseNatChars_digits (l : List Char) (hne : l ≠ []) (hd : isDigits l = true) :
    parseNatChars l = some (digitsVal l) := by
  unfold parseNatChars
  rw [if_pos ⟨hne, hd⟩]

/-! ## Round trip of the decimal rendering through the numeric parser -/

theorem parseUnsigned_render (A B e : Nat) (hB : B < 10 ^ e) :
    parseUnsigned (natDigits A ++ '.' :: fixedDigits e B) =
      some (mkRat (A * 10 ^ e + B) (10 ^ e)) := by
  obtain ⟨hAv, hAd, hAne⟩ := natDigits_spec A
  obtain ⟨hBv, hBd, hBl⟩ := fixedDigits_spec e B
  have hsplit : splitOnC '.' (natDigits A ++ '.' :: fixedDigits e B) =
      [natDigits A, fixedDigits e B] := by
    rw [splitOnC_append _ _ _ (not_mem_of_digits hAd (by decide)),
      splitOnC_not_mem _ _ (not_mem_of_digits hBd (by decide))]
  unfold parseUnsigned
  rw [hsplit]
  dsimp only
  rw [if_neg (by simp [hAne]), if_neg (not_not_intro ⟨hAd, hBd⟩), hAv, hBv, hBl,
    Nat.mod_eq_of_lt hB]

theorem renderDec_chars (q : ℚ) :
    ∀ c ∈ renderDec q, isDigitChar c = true ∨ c = '.' ∨ c = '-' := by
  intro c hc
  simp only [renderDec] at hc
  have hbody : ∀ x ∈ natDigits (q.num.natAbs * 10 ^ q.den / q.den / 10 ^ q.den) ++
      '.' :: fixedDigits q.den (q.num.natAbs * 10 ^ q.den / q.den % 10 ^ q.den),
      isDigitChar x = true ∨ x = '.' ∨ x = '-' := by
    intro x hx
    obtain ⟨_, hAd, _⟩ := natDigits_spec (q.num.natAbs * 10 ^ q.den / q.den / 10 ^ q.den)
    obtain ⟨_, hBd, _⟩ :=
      fixedDigits_spec q.den (q.num.natAbs * 10 ^ q.den / q.den % 10 ^ q.den)
    rcases List.mem_append.mp hx with hx1 | hx2
    · exact Or.inl (mem_isDigits hAd hx1)
    · rcases List.mem_cons.mp hx2 with rfl | hx3
      · exact Or.inr (Or.inl rfl)
      · exact Or.inl (mem_isDigits hBd hx3)
  by_cases hneg : q.num < 0
  · rw [if_pos hneg] at hc
    rcases List.mem_cons.mp hc with rfl | hc2
    · exact Or.inr (Or.inr rfl)
    · exact hbody c hc2
  · rw [if_neg hneg] at hc
    exact hbody c hc

theorem mkRat_mAbs (q : ℚ) (h : IsDec q) :
    (mkRat (↑(q.num.natAbs * 10 ^ q.den / q.den)) (10 ^ q.den) : ℚ) =
      (q.num.natAbs : ℚ) / (q.den : ℚ) := by
  have hdvd : (q.den : ℕ) ∣ q.num.natAbs * 10 ^ q.den := Dvd.dvd.mul_left h _
  have hexact : q.num.natAbs * 10 ^ q.den / q.den * q.den = q.num.natAbs * 10 ^ q.den :=
    Nat.div_mul_cancel hdvd
  have hden0 : (q.den : ℚ) ≠ 0 := Nat.cast_ne_zero.mpr q.den_nz
  have hpow0 : ((10 ^ q.den : ℕ) : ℚ) ≠ 0 :=
    Nat.cast_ne_zero.mpr (pow_ne_zero _ (by omega))
  generalize hN : q.num.natAbs * 10 ^ q.den / q.den = N at hexact ⊢
  rw [Rat.mkRat_eq_div]
  rw [div_eq_div_iff hpow0 hden0]
  have hc := congrArg (fun n : ℕ => (n : ℚ)) hexact
  push_cast at hc ⊢
  linear_combination hc

theorem parseDecChars_renderDec (q : ℚ) (h : IsDec q) :
    parseDecChars (renderDec q) = some q := by
  have hB : q.num.natAbs * 10 ^ q.den / q.den % 10 ^ q.den < 10 ^ q.den :=
    Nat.mod_lt _ (by positivity)
  obtain ⟨hAv, hAd, hAne⟩ :=
    natDigits_spec (q.num.natAbs * 10 ^ q.den / q.den / 10 ^ q.den)
  obtain ⟨hBv, hBd, hBl⟩ :=
    fixedDigits_spec q.den (q.num.natAbs * 10 ^ q.den / q.den % 10 ^ q.den)
  have hns : ' ' ∉ natDigits (q.num.natAbs * 10 ^ q.den / q.den / 10 ^ q.den) ++
      '.' :: fixedDigits q.den (q.num.natAbs * 10 ^ q.den / q.den % 10 ^ q.den) := by
    intro hmem
    rcases List.mem_append.mp hmem with h1 | h2
    · exact not_mem_of_digits hAd (by decide) h1
    · rcases List.mem_cons.mp h2 with h3 | h4
      · exact absurd h3 (by decide)
      · exact not_mem_of_digits hBd (by decide) h4
  have hsum : q.num.natAbs * 10 ^ q.den / q.den / 10 ^ q.den * 10 ^ q.den +
      q.num.natAbs * 10 ^ q.den / q.den % 10 ^ q.den =
      q.num.natAbs * 10 ^ q.den / q.den :=
    Nat.div_add_mod' _ _
  have hval : parseUnsigned (natDigits (q.num.natAbs * 10 ^ q.den / q.den / 10 ^ q.den) ++
      '.' :: fixedDigits q.den (q.num.natAbs * 10 ^ q.den / q.den % 10 ^ q.den)) =
      some (mkRat (↑(q.num.natAbs * 10 ^ q.den / q.den)) (10 ^ q.den)) := by
    rw [parseUnsigned_render _ _ _ hB]
    rw [show ((↑(q.num.natAbs * 10 ^ q.den / q.den / 10 ^ q.den) : ℤ) * 10 ^ q.den +
        ↑(q.num.natAbs * 10 ^ q.den / q.den % 10 ^ q.den)) =
        (↑(q.num.natAbs * 10 ^ q.den / q.den) : ℤ) from by exact_mod_cast hsum]
  by_cases hneg : q.num < 0
  · have hrd : renderDec q =
        '-' :: (natDigits (q.num.natAbs * 10 ^ q.den / q.den / 10 ^ q.den) ++
          '.' :: fixedDigits q.den (q.num.natAbs * 10 ^ q.den / q.den % 10 ^ q.den)) := by
      simp only [renderDec]
      rw [if_pos hneg]
    rw [hrd]
    unfold parseDecChars
    rw [trimChars_no_space _ (by
      intro hmem
      rcases List.mem_cons.mp hmem with h1 | h2
      · exact absurd h1 (by decide)
      · exact hns h2)]
    dsimp only
    rw [if_pos rfl, hval]
    simp only [Option.map_some']
    congr 1
    rw [mkRat_mAbs q h]
    have hnum : ((q.num.natAbs : ℚ)) = -(q.num : ℚ) := by
      rw [Int.cast_natAbs, abs_of_neg hneg, Int.cast_neg]
    rw [hnum]
    rw [neg_div, neg_neg, Rat.num_div_den]
  · obtain ⟨c, t, hct⟩ : ∃ c t,
        natDigits (q.num.natAbs * 10 ^ q.den / q.den / 10 ^ q.den) = c :: t := by
      cases hx : natDigits (q.num.natAbs * 10 ^ q.den / q.den / 10 ^ q.den) with
      | nil => exact absurd hx hAne
      | cons a b => exact ⟨a, b, rfl⟩
    have hcdig : isDigitChar c = true := mem_isDigits hAd (by rw [hct]; simp)
    have hrd : renderDec q =
        c :: (t ++ '.' :: fixedDigits q.den (q.num.natAbs * 10 ^ q.den / q.den % 10 ^ q.den)) := by
      simp only [renderDec]
      rw [if_neg hneg, hct]
      simp
    rw [hrd]
    unfold parseDecChars
    rw [trimChars_no_space _ (by
      intro hmem
      apply hns
      rw [hct]
      simpa using hmem)]
    dsimp only
    rw [if_neg (by rintro rfl; exact absurd hcdig (by decide)),
      if_neg (by rintro rfl; exact absurd hcdig (by decide))]
    rw [show c :: (t ++ '.' :: fixedDigits q.den
        (q.num.natAbs * 10 ^ q.den / q.den % 10 ^ q.den)) =
      natDigits (q.num.natAbs * 10 ^ q.den / q.den / 10 ^ q.den) ++
        '.' :: fixedDigits q.den (q.num.natAbs * 10 ^ q.den / q.den % 10 ^ q.den) by
      rw [hct]; simp]
    rw [hval]
    congr 1
    rw [mkRat_mAbs q h]
    have hpos : 0 ≤ q.num := not_lt.mp hneg
    have hnum : ((q.num.natAbs : ℚ)) = (q.num : ℚ) := by
      rw [Int.cast_natAbs, abs_of_nonneg hpos]
    rw [hnum, Rat.num_div_den]

/-! ## Round trip of the timestamp rendering through the date parser -/

theorem parseTimeChars_render (tod : Nat) (h : tod < 86400) :
    parseTimeChars (natDigits (tod / 3600) ++ ':' :: fixedDigits 2 (tod % 3600 / 60) ++
      ':' :: fixedDigits 2 (tod % 60)) = some tod := by
  obtain ⟨hHv, hHd, hHne⟩ := natDigits_spec (tod / 3600)
  obtain ⟨hMv, hMd, hMl⟩ := fixedDigits_spec 2 (tod % 3600 / 60)
  obtain ⟨hSv, hSd, hSl⟩ := fixedDigits_spec 2 (tod % 60)
  have hMne : fixedDigits 2 (tod % 3600 / 60) ≠ [] := by
    intro hx; rw [hx] at hMl; simp at hMl
  have hSne : fixedDigits 2 (tod % 60) ≠ [] := by
    intro hx; rw [hx] at hSl; simp at hSl
  have hshape : natDigits (tod / 3600) ++ ':' :: fixedDigits 2 (tod % 3600 / 60) ++
      ':' :: fixedDigits 2 (tod % 60) =
      natDigits (tod / 3600) ++ ':' :: (fixedDigits 2 (tod % 3600 / 60) ++
        ':' :: fixedDigits 2 (tod % 60)) := by
    simp [List.append_assoc]
  have hsplit : splitOnC ':' (natDigits (tod / 3600) ++ ':' :: fixedDigits 2 (tod % 3600 / 60) ++
      ':' :: fixedDigits 2 (tod % 60)) =
      [natDigits (tod / 3600), fixedDigits 2 (tod % 3600 / 60), fixedDigits 2 (tod % 60)] := by
    rw [hshape, splitOnC_append _ _ _ (not_mem_of_digits hHd (by decide)),
      splitOnC_append _ _ _ (not_mem_of_digits hMd (by decide)),
      splitOnC_not_mem _ _ (not_mem_of_digits hSd (by decide))]
  unfold parseTimeChars
  rw [hsplit]
  dsimp only
  rw [parseNatChars_digits _ hHne hHd, parseNatChars_digits _ hMne hMd,
    parseNatChars_digits _ hSne hSd, hHv, hMv, hSv]
  dsimp only
  rw [if_pos (by omega)]
  have hM : tod % 3600 / 60 % 10 ^ 2 = tod % 3600 / 60 := Nat.mod_eq_of_lt (by omega)
  have hS : tod % 60 % 10 ^ 2 = tod % 60 := Nat.mod_eq_of_lt (by omega)
  rw [hM, hS]
  congr 1
  omega

theorem parseDateChars_renderTs (t : Timestamp) (h : ValidTs t) :
    parseDateChars (renderTs t) = some t := by
  obtain ⟨y, mo, d, tod⟩ := t
  obtain ⟨hm1, hm2, hd1, hd2, ht0⟩ := h
  simp only at hm1 hm2 hd1 hd2 ht0
  obtain ⟨hYv, hYd, hYne⟩ := natDigits_spec y
  obtain ⟨hMov, hMod, hMol⟩ := fixedDigits_spec 2 mo
  obtain ⟨hDv, hDd, hDl⟩ := fixedDigits_spec 2 d
  obtain ⟨hHd2, hHdd, hHdne⟩ := natDigits_spec (tod / 3600)
  obtain ⟨hMv2, hMd2, hMl2⟩ := fixedDigits_spec 2 (tod % 3600 / 60)
  obtain ⟨hSv2, hSd2, hSl2⟩ := fixedDigits_spec 2 (tod % 60)
  have hMone : fixedDigits 2 mo ≠ [] := by
    intro hx; rw [hx] at hMol; simp at hMol
  have hDne : fixedDigits 2 d ≠ [] := by
    intro hx; rw [hx] at hDl; simp at hDl
  have hshape : renderTs ⟨y, mo, d, tod⟩ =
      (natDigits y ++ '-' :: fixedDigits 2 mo ++ '-' :: fixedDigits 2 d) ++
        ' ' :: (natDigits (tod / 3600) ++ ':' :: fixedDigits 2 (tod % 3600 / 60) ++
          ':' :: fixedDigits 2 (tod % 60)) := by
    simp [renderTs, List.append_assoc]
  have hdnos : ' ' ∉ natDigits y ++ '-' :: fixedDigits 2 mo ++ '-' :: fixedDigits 2 d := by
    intro hmem
    simp only [List.mem_append, List.mem_cons] at hmem
    rcases hmem with (h1 | (h1 | h1)) | (h1 | h1)
    · exact not_mem_of_digits hYd (by decide) h1
    · exact absurd h1 (by decide)
    · exact not_mem_of_digits hMod (by decide) h1
    · exact absurd h1 (by decide)
    · exact not_mem_of_digits hDd (by decide) h1
  have htnos : ' ' ∉ natDigits (tod / 3600) ++ ':' :: fixedDigits 2 (tod % 3600 / 60) ++
      ':' :: fixedDigits 2 (tod % 60) := by
    intro hmem
    simp only [List.mem_append, List.mem_cons] at hmem
    rcases hmem with (h1 | (h1 | h1)) | (h1 | h1)
    · exact not_mem_of_digits hHdd (by decide) h1
    · exact absurd h1 (by decide)
    · exact not_mem_of_digits hMd2 (by decide) h1
    · exact absurd h1 (by decide)
    · exact not_mem_of_digits hSd2 (by decide) h1
  have hsplitsp : splitOnC ' ' (renderTs ⟨y, mo, d, tod⟩) =
      [natDigits y ++ '-' :: fixedDigits 2 mo ++ '-' :: fixedDigits 2 d,
        natDigits (tod / 3600) ++ ':' :: fixedDigits 2 (tod % 3600 / 60) ++
          ':' :: fixedDigits 2 (tod % 60)] := by
    rw [hshape, splitOnC_append _ _ _ hdnos, splitOnC_not_mem _ _ htnos]
  have hnoslash : '/' ∉ natDigits y ++ '-' :: fixedDigits 2 mo ++ '-' :: fixedDigits 2 d := by
    intro hmem
    simp only [List.mem_append, List.mem_cons] at hmem
    rcases hmem with (h1 | (h1 | h1)) | (h1 | h1)
    · exact not_mem_of_digits hYd (by decide) h1
    · exact absurd h1 (by decide)
    · exact not_mem_of_digits hMod (by decide) h1
    · exact absurd h1 (by decide)
    · exact not_mem_of_digits hDd (by decide) h1
  have hdshape : natDigits y ++ '-' :: fixedDigits 2 mo ++ '-' :: fixedDigits 2 d =
      natDigits y ++ '-' :: (fixedDigits 2 mo ++ '-' :: fixedDigits 2 d) := by
    simp [List.append_assoc]
  have hsplitdash : splitOnC '-' (natDigits y ++ '-' :: fixedDigits 2 mo ++
      '-' :: fixedDigits 2 d) = [natDigits y, fixedDigits 2 mo, fixedDigits 2 d] := by
    rw [hdshape, splitOnC_append _ _ _ (not_mem_of_digits hYd (by decide)),
      splitOnC_append _ _ _ (not_mem_of_digits hMod (by decide)),
      splitOnC_not_mem _ _ (not_mem_of_digits hDd (by decide))]
  have hcal : parseCalChars (natDigits y ++ '-' :: fixedDigits 2 mo ++
      '-' :: fixedDigits 2 d) = some ⟨y, mo, d⟩ := by
    unfold parseCalChars
    rw [splitOnC_not_mem _ _ hnoslash]
    dsimp only
    rw [hsplitdash]
    dsimp only
    rw [parseNatChars_digits _ hYne hYd, parseNatChars_digits _ hMone hMod,
      parseNatChars_digits _ hDne hDd, hYv, hMov, hDv]
    dsimp only
    rw [Nat.mod_eq_of_lt (show mo < 10 ^ 2 by omega),
      Nat.mod_eq_of_lt (show d < 10 ^ 2 by omega)]
    rw [if_pos (by omega)]
  unfold parseDateChars
  rw [hsplitsp]
  dsimp only
  rw [hcal, parseTimeChars_render tod ht0]

/-! ## Round trip of a whole exported row through the Loader/Cleaner -/

theorem parseMoney_renderDec (q : ℚ) (h : IsDec q) :
    parseMoney (some (String.mk (renderDec q))) = some q := by
  have hclean : cleanCurrency (String.mk (renderDec q)) = String.mk (renderDec q) := by
    unfold cleanCurrency
    congr 1
    show (renderDec q).filter (fun c => !(c == '$' || c == ',')) = renderDec q
    apply List.filter_eq_self.mpr
    intro c hc
    rcases renderDec_chars q c hc with hd | h1 | h1
    · have h2 : ¬ (c = '$') := by rintro rfl; exact absurd hd (by decide)
      have h3 : ¬ (c = ',') := by rintro rfl; exact absurd hd (by decide)
      simp [h2, h3]
    · subst h1; decide
    · subst h1; decide
  show parseDecimal (cleanCurrency (String.mk (renderDec q))) = some q
  rw [hclean]
  show parseDecChars (renderDec q) = some q
  exact parseDecChars_renderDec q h

theorem monthStr_ne_empty (t : Timestamp) : monthStr t ≠ "" := by
  unfold monthStr
  intro hcontr
  obtain ⟨_, _, hne⟩ := natDigits_spec t.year
  have hdata : natDigits t.year ++ '-' :: fixedDigits 2 t.month = [] := by
    simpa using congrArg String.data hcontr
  simp [List.append_eq_nil] at hdata

theorem rowToRecord_exportRow (r : Record) (mo : String) (h : GoodRec r)
    (hmo : mo ≠ "") : rowToRecord (exportRow r mo) = some r := by
  obtain ⟨h1, h2, h3, h4, h5, h6⟩ := h
  have hclean : cleanRow (exportRow r mo) =
      ⟨some r.date, some r.country, some r.product, some r.unitsSold,
        some r.unitPrice, some r.totalSale, some r.salesAfterDiscount, [some mo]⟩ := by
    unfold cleanRow exportRow exportText dateValue
    dsimp only
    rw [if_neg h5, if_neg h6, if_neg hmo]
    have hdt : parseDateText (String.mk (renderTs r.date)) = some r.date := by
      unfold parseDateText
      exact parseDateChars_renderTs r.date h4
    rw [hdt, parseMoney_renderDec _ h1, parseMoney_renderDec _ h2, parseMoney_renderDec _ h3]
  unfold rowToRecord
  rw [hclean]
  unfold toRecord
  dsimp only
  rw [if_pos (by simp)]

theorem badDateText_exportRow (r : Record) (mo : String) (h : ValidTs r.date) :
    badDateText (exportRow r mo) = false := by
  unfold badDateText exportRow
  dsimp only
  have hdt : parseDateText (String.mk (renderTs r.date)) = some r.date := by
    unfold parseDateText
    exact parseDateChars_renderTs r.date h
  rw [hdt]
  rfl

theorem filterMap_eq_self {α : Type} (f : α → Option α) (l : List α)
    (h : ∀ x ∈ l, f x = some x) : l.filterMap f = l := by
  induction l with
  | nil => rfl
  | cons a t ih =>
    rw [List.filterMap_cons, h a (by simp), ih (fun x hx => h x (by simp [hx]))]

/-! ## Claim theorems -/

/-- C6: on the empty filtered view the Aggregator raises nothing: each of the
three sums of `summarize` is zero and each of the three grouped mappings is
empty. -/
theorem empty_view_summary : summarize [] = ⟨0, 0, 0, [], [], []⟩ := by
  decide

/-- C4: for every filtered view, the by-country grouped totals, the
by-product grouped totals and the by-month grouped totals of `summarize`
each sum to the net revenue scalar. -/
theorem aggregate_consistency (v : List Record) :
    ((summarize v).countrySales.map Prod.snd).sum = (summarize v).totalAfterDiscount ∧
    ((summarize v).productSales.map Prod.snd).sum = (summarize v).totalAfterDiscount ∧
    ((summarize v).monthlySales.map Prod.snd).sum = (summarize v).totalAfterDiscount := by
  refine ⟨?_, ?_, ?_⟩ <;> exact groupSumBy_total _ v

/-- C10: cleaning removes every `$` and `,` anywhere in a money string, so
malformed values such as `1,2,3` and `12,34` parse (to `123` and `1234`) and
their row is kept by `load`. -/
theorem currency_strip_everywhere :
    (∀ s : String, '$' ∉ (cleanCurrency s).data ∧ ',' ∉ (cleanCurrency s).data ∧
      (cleanCurrency s).data = s.data.filter (fun ch => !(ch == '$' || ch == ','))) ∧
    parseDecimal (cleanCurrency "1,2,3") = some 123 ∧
    parseDecimal (cleanCurrency "12,34") = some 1234 ∧
    load [wCommaRow] = Except.ok [wCommaRec] := by
  refine ⟨?_, by decide, by decide, by decide⟩
  intro s
  refine ⟨?_, ?_, rfl⟩ <;>
    · intro hmem
      have := List.of_mem_filter hmem
      simp at this

theorem toRecord_isSome_iff (c : CRow) : (toRecord c).isSome = rowComplete c := by
  obtain ⟨d, co, pr, u, up, ts, sad, ex⟩ := c
  cases d <;> cases co <;> cases pr <;> cases u <;> cases up <;> cases ts <;> cases sad <;>
    cases hex : ex.all Option.isSome <;> simp [toRecord, rowComplete, hex]

theorem filterMap_toRecord_filter (l : List CRow) :
    (l.filter rowComplete).filterMap toRecord = l.filterMap toRecord := by
  induction l with
  | nil => rfl
  | cons a t ih =>
    cases h : rowComplete a
    · have hnone : toRecord a = none := by
        cases h2 : toRecord a with
        | none => rfl
        | some rec =>
          have hs := toRecord_isSome_iff a
          rw [h2, h] at hs
          exact absurd hs (by simp)
      rw [List.filter_cons_of_neg (by simp [h])]
      simp [List.filterMap_cons, hnone, ih]
    · rw [List.filter_cons_of_pos (by simp [h])]
      simp [List.filterMap_cons, ih]

theorem load_ok_val (rows : List RawRow)
    (h : rows.all (fun r => !badDateText r) = true) :
    load rows = Except.ok (rows.filterMap rowToRecord) := by
  unfold load
  rw [if_pos h]
  congr 1
  rw [filterMap_toRecord_filter, List.filterMap_map]
  rfl

/-- C2: a row any of whose three money fields fails to parse (after currency
cleaning) contributes nothing to the loaded dataset, every fully-parsing row
contributes exactly its normalized record, and the dataset is nothing but
those records in order — no per-field repair occurs. -/
theorem load_row_drop (rows : List RawRow) (ds : List Record)
    (h : load rows = Except.ok ds) :
    ds = rows.filterMap rowToRecord ∧
    (∀ r ∈ rows, (parseMoney r.unitPrice = none ∨ parseMoney r.totalSale = none ∨
      parseMoney r.salesAfterDiscount = none) → rowToRecord r = none) ∧
    (∀ r ∈ rows, ∀ rec : Record, rowToRecord r = some rec → rec ∈ ds) := by
  have hall : rows.all (fun r => !badDateText r) = true := by
    by_contra hn
    have hbad : load rows = Except.error LoadErr.dateParseError := by
      unfold load; rw [if_neg hn]
    rw [hbad] at h
    exact Except.noConfusion h
  have hds : ds = rows.filterMap rowToRecord := by
    have hv := load_ok_val rows hall
    rw [h] at hv
    exact Except.ok.inj hv
  refine ⟨hds, ?_, ?_⟩
  · intro r _ hbad
    cases h2 : rowToRecord r with
    | none => rfl
    | some rec =>
      have hc : rowComplete (cleanRow r) = true := by
        have hs := toRecord_isSome_iff (cleanRow r)
        rw [show toRecord (cleanRow r) = some rec from h2] at hs
        exact hs.symm
      rcases hbad with hb | hb | hb <;> simp [rowComplete, cleanRow, hb] at hc
  · intro r hr rec h2
    rw [hds]
    exact List.mem_filterMap.mpr ⟨r, hr, h2⟩

theorem load_row_drop_witness :
    [wGoodRec] = [wGoodRow, wBadMoneyRow].filterMap rowToRecord ∧
    rowToRecord wBadMoneyRow = none := by
  have h := load_row_drop [wGoodRow, wBadMoneyRow] [wGoodRec] (by decide)
  exact ⟨h.1, h.2.1 wBadMoneyRow (by decide) (by decide)⟩

/-- C3 counterexample: a table with one good row and one row of unparseable
date text makes `load` fail outright (the `pd.to_datetime` call of app.py
line 33 raises, having no `errors="coerce"`): the bad row is not silently
dropped and the good row is not retained, contrary to the claim. -/
theorem load_raises_on_bad_date :
    load [wGoodRow, wBadDateRow] = Except.error LoadErr.dateParseError := by
  decide

/-- C3 amended: `load` raises exactly when some row's `Date` cell holds
unparseable text; only when no such cell exists does it return a dataset, in
which a row with a blank (missing) `Date` cell is silently dropped. -/
theorem load_date_error_amended (rows : List RawRow) :
    ((∃ e, load rows = Except.error e) ↔ ∃ r ∈ rows, badDateText r = true) ∧
    ((∀ r ∈ rows, badDateText r = false) →
      load rows = Except.ok (rows.filterMap rowToRecord) ∧
      (∀ r ∈ rows, r.date = DCell.blank → rowToRecord r = none)) := by
  constructor
  · constructor
    · rintro ⟨e, he⟩
      by_cases hall : rows.all (fun r => !badDateText r) = true
      · rw [load_ok_val rows hall] at he
        exact Except.noConfusion he
      · have hf : rows.all (fun r => !badDateText r) = false := by
          cases hx : rows.all (fun r => !badDateText r) with
          | false => rfl
          | true => exact absurd hx hall
        obtain ⟨r, hr, hb⟩ := List.all_eq_false.mp hf
        exact ⟨r, hr, by simpa using hb⟩
    · rintro ⟨r, hr, hb⟩
      have hf : rows.all (fun r => !badDateText r) = false :=
        List.all_eq_false.mpr ⟨r, hr, by simp [hb]⟩
      exact ⟨LoadErr.dateParseError, by unfold load; rw [if_neg (by simp [hf])]⟩
  · intro hnone
    have hall : rows.all (fun r => !badDateText r) = true := by
      rw [List.all_eq_true]
      intro r hr
      simp [hnone r hr]
    refine ⟨load_ok_val rows hall, ?_⟩
    intro r _ hblank
    cases h2 : rowToRecord r with
    | none => rfl
    | some rec =>
      have hc : rowComplete (cleanRow r) = true := by
        have hs := toRecord_isSome_iff (cleanRow r)
        rw [show toRecord (cleanRow r) = some rec from h2] at hs
        exact hs.symm
      have hd : (cleanRow r).date = none := by simp [cleanRow, dateValue, hblank]
      simp [rowComplete, hd] at hc

theorem load_date_error_amended_witness :
    load [wBlankDateRow] = Except.ok ([wBlankDateRow].filterMap rowToRecord) ∧
    rowToRecord wBlankDateRow = none := by
  have h := (load_date_error_amended [wBlankDateRow]).2 (by decide)
  exact ⟨h.1, h.2 wBlankDateRow (by decide) (by decide)⟩

/-- C1: the Filter Engine returns exactly the records of the dataset that
satisfy the conjunction of the three predicates — every returned record
satisfies all three, every satisfying record appears exactly as often as in
the dataset, and the original relative order is preserved. -/
theorem filter_conjunction (df : List Record) (c : Criteria) :
    applyFilter df c = df.filter (claimPredB c) ∧
    (∀ r ∈ applyFilter df c, claimPredB c r = true) ∧
    (applyFilter df c).Sublist df ∧
    (∀ r : Record, claimPredB c r = true → (applyFilter df c).count r = df.count r) := by
  have key : applyFilter df c = df.filter (claimPredB c) := by
    cases hC : c.countries.isEmpty <;> cases hP : c.products.isEmpty <;>
        simp only [applyFilter, claimPredB, hC, hP, Bool.false_eq_true, if_true, if_false,
          ite_true, ite_false, Bool.false_or, Bool.true_or, Bool.and_true, List.filter_filter] <;>
      · apply List.filter_congr
        intro r _
        cases h1 : datePredB c r <;> cases hco : c.countries.contains r.country <;>
          cases hpr : c.products.contains r.product <;>
            simp only [claimPredB, h1, hco, hpr, hC, hP, Bool.false_or, Bool.true_or,
              Bool.or_false, Bool.or_true, Bool.and_true, Bool.true_and, Bool.false_and,
              Bool.and_false]
  refine ⟨key, ?_, ?_, ?_⟩
  · intro r hr
    rw [key] at hr
    exact List.of_mem_filter hr
  · rw [key]
    exact List.filter_sublist df
  · intro r h
    rw [key]
    exact List.count_filter h

theorem leb_iff (a b : Timestamp) :
    Timestamp.leb a b = true ↔
      (a.year < b.year ∨ (a.year = b.year ∧ (a.month < b.month ∨ (a.month = b.month ∧
        (a.day < b.day ∨ (a.day = b.day ∧ a.tod ≤ b.tod)))))) := by
  unfold Timestamp.leb
  split_ifs <;> simp <;> omega

theorem calLeb_iff (a b : CalDate) :
    CalDate.leb a b = true ↔
      (a.year < b.year ∨ (a.year = b.year ∧ (a.month < b.month ∨ (a.month = b.month ∧
        a.day ≤ b.day)))) := by
  unfold CalDate.leb
  split_ifs <;> simp <;> omega

theorem calLtb_iff (a b : CalDate) :
    CalDate.ltb a b = true ↔
      (a.year < b.year ∨ (a.year = b.year ∧ (a.month < b.month ∨ (a.month = b.month ∧
        a.day < b.day)))) := by
  unfold CalDate.ltb CalDate.leb
  split_ifs <;> simp <;> omega

/-- C5 counterexample: a record dated on the very end date of the reporting
period but carrying a 10:00 time-of-day is rejected by the date predicate
and filtered out, although its calendar date lies inclusively within the
range — the comparison is a datetime comparison against midnight, not a
calendar-date comparison. -/
theorem end_date_time_of_day_excluded :
    toCal wMorningRec.date = wMarchCrit.endDate ∧
    CalDate.leb wMarchCrit.startDate (toCal wMorningRec.date) = true ∧
    CalDate.leb (toCal wMorningRec.date) wMarchCrit.endDate = true ∧
    wMarchCrit.countries = [] ∧ wMarchCrit.products = [] ∧
    datePredB wMarchCrit wMorningRec = false ∧
    applyFilter [wMorningRec] wMarchCrit = [] := by
  decide

/-- C5 amended: a record passes the date predicate iff its timestamp lies
between the midnights of the two bounds: equivalently, its calendar date is
within the inclusive range and, when it falls exactly on the end date, its
time-of-day is midnight.  A record on the start date passes regardless of
time-of-day. -/
theorem date_predicate_amended (c : Criteria) (r : Record) :
    datePredB c r = true ↔
      (CalDate.leb c.startDate (toCal r.date) = true ∧
       CalDate.leb (toCal r.date) c.endDate = true ∧
       (CalDate.ltb (toCal r.date) c.endDate = true ∨ r.date.tod = 0)) := by
  unfold datePredB
  rw [Bool.and_eq_true, leb_iff, leb_iff, calLeb_iff, calLeb_iff, calLtb_iff]
  simp only [calToTs, toCal]
  omega

/-- C8 counterexample: a source table missing only the `Units_Sold` column
loads successfully — `load_data` returns a nonempty cleaned dataset — and
the failure surfaces only later, at the KPI block's column access during
aggregation, while the sidebar stage passes. -/
theorem missing_units_loads_ok :
    loadS wNoUnitsSchema [wGoodRow] = Except.ok [cleanRow wGoodRow] ∧
    sidebarStep wNoUnitsSchema = Except.ok () ∧
    kpiStep wNoUnitsSchema = Except.error LoadErr.keyErrorUnitsSold := by
  decide

/-- C8 amended: the load step fails exactly when one of the four columns it
accesses (`Unit_Price`, `Total_Sale`, `Sales_After_Discount`, `Date`) is
missing or some date text is unparseable; a missing `Country` or `Product`
column fails at the sidebar stage and a missing `Units_Sold` column fails at
the KPI aggregation stage, both after a successful load. -/
theorem column_failure_stages (s : Schema) (rows : List RawRow) :
    ((∃ e, loadS s rows = Except.error e) ↔
      (s.hasUnitPrice = false ∨ s.hasTotalSale = false ∨
        s.hasSalesAfterDiscount = false ∨ s.hasDate = false ∨
        ∃ r ∈ rows, badDateText r = true)) ∧
    (sidebarStep s = Except.ok () ↔ (s.hasCountry = true ∧ s.hasProduct = true)) ∧
    (kpiStep s = Except.ok () ↔ s.hasUnitsSold = true) := by
  refine ⟨?_, ?_, ?_⟩
  · unfold loadS
    cases hup : s.hasUnitPrice <;> cases hts : s.hasTotalSale <;>
        cases hsa : s.hasSalesAfterDiscount <;> cases hd : s.hasDate <;>
      simp only [hup, hts, hsa, hd, Bool.not_true, Bool.not_false, if_true, if_false,
        ite_true, ite_false, Bool.false_eq_true, Bool.true_eq_false] <;>
      try simp
    cases hall : rows.all (fun r => !badDateText r) with
    | true =>
      have hforall : ∀ x ∈ rows, badDateText x = false := by
        intro x hx
        simpa using List.all_eq_true.mp hall x hx
      rw [if_pos hforall]
      constructor
      · rintro ⟨e, he⟩
        exact Except.noConfusion he
      · rintro ⟨r, hr, hb⟩
        rw [hforall r hr] at hb
        exact Bool.noConfusion hb
    | false =>
      obtain ⟨r, hr, hb⟩ := List.all_eq_false.mp hall
      have hbad : badDateText r = true := by simpa using hb
      rw [if_neg (fun hforall => by rw [hforall r hr] at hbad; exact Bool.noConfusion hbad)]
      constructor
      · intro _
        exact ⟨r, hr, hbad⟩
      · intro _
        exact ⟨LoadErr.dateParseError, rfl⟩
  · unfold sidebarStep
    cases hc : s.hasCountry <;> cases hp : s.hasProduct <;> simp [hc, hp]
  · unfold kpiStep
    cases hu : s.hasUnitsSold <;> simp [hu]

/-- C7: exporting a filtered view row by row (numeric fields rendered as
plain decimal text, dates in ISO text, together with the derived `Month`
column) and re-loading the result through the Loader/Cleaner's parsing
rules reconstructs the view exactly: the same row count, the same values in
every field, and no row dropped by the cleaning pipeline. -/
theorem export_round_trip (v : List Record) (h : ∀ r ∈ v, GoodRec r) :
    load (exportView v) = Except.ok v := by
  have hball : (exportView v).all (fun r => !badDateText r) = true := by
    rw [List.all_eq_true]
    intro x hx
    obtain ⟨r, hr, rfl⟩ := List.mem_map.mp hx
    rw [badDateText_exportRow r _ (h r hr).2.2.2.1]
    rfl
  rw [load_ok_val _ hball]
  congr 1
  unfold exportView
  rw [List.filterMap_map]
  exact filterMap_eq_self _ v (fun r hr => by
    show rowToRecord (exportRow r (monthStr r.date)) = some r
    exact rowToRecord_exportRow r (monthStr r.date) (h r hr) (monthStr_ne_empty r.date))

theorem export_round_trip_witness :
    load (exportView [wExportRec]) = Except.ok [wExportRec] :=
  export_round_trip [wExportRec] (by decide)

/-- C9: running the script body mutates only the working frame: the loaded
dataset is unchanged by filtering and by the in-place `Month` assignment,
and the resulting view is a pure function of the dataset and the
criteria — the filtered records, each with its derived `Month` label. -/
theorem pipeline_preserves_dataset (s : DashState) (c : Criteria) :
    (scriptSteps c s).df = s.df ∧
    (scriptSteps c s).view =
      (applyFilter s.df c).map (fun r => ⟨r, some (monthStr r.date)⟩) := by
  cases hC : c.countries.isEmpty <;> cases hP : c.products.isEmpty <;>
    exact ⟨by simp [scriptSteps, hC, hP],
      by simp [scriptSteps, applyFilter, hC, hP, List.filter_map, List.map_map,
        Function.comp_def]⟩

end SalesDash
